import Mathlib

/-!
Verification of the two-dimensional structure-function engine of pyturbo_sf
(src/pyturbo_sf/two_dimensional.py), as a shallow embedding in Lean 4.

Real (floating-point) arithmetic is idealised as exact rational arithmetic
over ℚ.  Square roots (numpy.sqrt, used for the separation norm, standard
deviations and sqrt of counts) are not rational-valued, so every definition
that needs one is parametrised by an oracle function sq : ℚ → ℚ; theorems
that depend on the value of a root state the defining properties
(0 ≤ sq s and (sq s) ^ 2 = s) as hypotheses.  NaN-valued quantities are
modelled with Option ℚ (none = NaN); numpy comparisons with NaN are false,
which the helper stdLe reproduces.
-/

namespace PyTurboSF

/-! ### Per-point kernel arithmetic (two_dimensional.py lines 76-98, 163-183)

At one grid point with field differences du, dv, physical separations
dx, dy and separation norm `norm`, the longitudinal and transverse
projections are computed exactly as in the source:
`delta_parallel = dcomp1 * (dx/norm) + dcomp2 * (dy/norm)` and
`delta_perp = dcomp1 * (dy/norm) - dcomp2 * (dx/norm)`. -/

/-- Longitudinal projection of a per-point velocity difference onto the
separation direction (two_dimensional.py line 94). -/
def delta_parallel (du dv dx dy norm : ℚ) : ℚ :=
  du * (dx / norm) + dv * (dy / norm)

/-- Transverse projection of a per-point velocity difference, perpendicular
to the separation direction (two_dimensional.py line 179). -/
def delta_perp (du dv dx dy norm : ℚ) : ℚ :=
  du * (dy / norm) - dv * (dx / norm)

/-- Floor applied to the separation norm before it is used as a divisor:
`norm = np.maximum(np.sqrt(dx**2 + dy**2), 1e-10)` (two_dimensional.py
line 81 and analogues).  The square root is supplied by the oracle `sq`. -/
def normFloored (sq : ℚ → ℚ) (dx dy : ℚ) : ℚ :=
  max (sq (dx ^ 2 + dy ^ 2)) (1 / 10 ^ 10)

/-! ### Gridded fields and the per-offset kernels

A 2D field is a list of rows of rationals.  `fast_shift_2d` lives in
pyturbo_sf.utils, outside the provided sources. -/

/-- Field on the 2D grid: a list of rows. -/
abbrev Grid := List (List ℚ)

/-- Modelled from the spec: `cyclic_shift(array, row_offset, col_offset) →
array` is a periodic (toroidal) shift on both axes (spec section 6,
collaborator contract for `fast_shift_2d`).  Row r, column c of the result
is the input at row (r + iy) mod ny, column (c + ix) mod nx. -/
def fastShift2d (a : Grid) (iy ix : ℕ) : Grid :=
  (a.map (fun row => row.rotate ix)).rotate iy

/-- Elementwise subtraction of two grids (`shifted - original`). -/
def elemSub (a b : Grid) : Grid :=
  List.zipWith (List.zipWith (fun p q => p - q)) a b

/-- Flatten a grid into the list of its points, in row-major order (the
kernels reduce with `bn.nanmean` over the whole 2D array). -/
def flat (a : Grid) : List ℚ :=
  a.flatten

/-- Mean over a list of values, `none` when the list is empty
(`bn.nanmean` of an empty / all-missing array is NaN). -/
def nanmean (l : List ℚ) : Option ℚ :=
  if l.isEmpty then none else some (l.sum / l.length)

/-- Per-point difference field of one coordinate or field variable under the
cyclic shift by (iy, ix): `fast_shift_2d(arr, iy, ix) - arr`, flattened. -/
def sepList (a : Grid) (iy ix : ℕ) : List ℚ :=
  flat (elemSub (fastShift2d a iy ix) a)

/-- Comparison `v <= eps` where `v` may be NaN; NaN comparisons are false
in numpy. -/
def stdLe (v : Option ℚ) (eps : ℚ) : Bool :=
  match v with
  | none => false
  | some x => decide (x ≤ eps)

/-- Kernel calc_longitudinal_2d (two_dimensional.py lines 18-102) evaluated
at the single cyclic-shift offset (iy, ix): returns
(sf value, mean separation DX, mean separation DY) for that offset, which
the source stores at results[iy*nx+ix], dx_vals[...], dy_vals[...]. -/
def calc_longitudinal_2d (sq : ℚ → ℚ) (xc yc c1 c2 : Grid) (order : ℕ)
    (iy ix : ℕ) : Option ℚ × Option ℚ × Option ℚ :=
  let dxl := sepList xc iy ix
  let dyl := sepList yc iy ix
  let dul := sepList c1 iy ix
  let dvl := sepList c2 iy ix
  let sf := List.zipWith
    (fun uv xy =>
      delta_parallel uv.1 uv.2 xy.1 xy.2 (normFloored sq xy.1 xy.2) ^ order)
    (dul.zip dvl) (dxl.zip dyl)
  (nanmean sf, nanmean dxl, nanmean dyl)

/-- Kernel calc_transverse_2d (lines 105-187) at one offset. -/
def calc_transverse_2d (sq : ℚ → ℚ) (xc yc c1 c2 : Grid) (order : ℕ)
    (iy ix : ℕ) : Option ℚ × Option ℚ × Option ℚ :=
  let dxl := sepList xc iy ix
  let dyl := sepList yc iy ix
  let dul := sepList c1 iy ix
  let dvl := sepList c2 iy ix
  let sf := List.zipWith
    (fun uv xy =>
      delta_perp uv.1 uv.2 xy.1 xy.2 (normFloored sq xy.1 xy.2) ^ order)
    (dul.zip dvl) (dxl.zip dyl)
  (nanmean sf, nanmean dxl, nanmean dyl)

/-- Kernel calc_default_vel_2d (lines 190-265) at one offset:
`sf_val = dcomp1 ** order + dcomp2 ** order`. -/
def calc_default_vel_2d (xc yc c1 c2 : Grid) (order : ℕ)
    (iy ix : ℕ) : Option ℚ × Option ℚ × Option ℚ :=
  let dxl := sepList xc iy ix
  let dyl := sepList yc iy ix
  let dul := sepList c1 iy ix
  let dvl := sepList c2 iy ix
  let sf := List.zipWith (fun du dv => du ^ order + dv ^ order) dul dvl
  (nanmean sf, nanmean dxl, nanmean dyl)

/-- Kernel calc_scalar_2d (lines 268-340) at one offset:
`sf_val = dscalar ** order`. -/
def calc_scalar_2d (xc yc sc : Grid) (order : ℕ)
    (iy ix : ℕ) : Option ℚ × Option ℚ × Option ℚ :=
  let dxl := sepList xc iy ix
  let dyl := sepList yc iy ix
  let dsl := sepList sc iy ix
  let sf := dsl.map (fun d => d ^ order)
  (nanmean sf, nanmean dxl, nanmean dyl)

/-- Kernel calc_scalar_scalar_2d (lines 343-423) at one offset:
`sf_val = dscalar1 ** n * dscalar2 ** k`. -/
def calc_scalar_scalar_2d (xc yc s1 s2 : Grid) (n k : ℕ)
    (iy ix : ℕ) : Option ℚ × Option ℚ × Option ℚ :=
  let dxl := sepList xc iy ix
  let dyl := sepList yc iy ix
  let d1 := sepList s1 iy ix
  let d2 := sepList s2 iy ix
  let sf := List.zipWith (fun a b => a ^ n * b ^ k) d1 d2
  (nanmean sf, nanmean dxl, nanmean dyl)

/-- Kernel calc_longitudinal_transverse_2d (lines 426-517) at one offset:
`sf_val = delta_parallel ** n * delta_perp ** k`. -/
def calc_longitudinal_transverse_2d (sq : ℚ → ℚ) (xc yc c1 c2 : Grid)
    (n k : ℕ) (iy ix : ℕ) : Option ℚ × Option ℚ × Option ℚ :=
  let dxl := sepList xc iy ix
  let dyl := sepList yc iy ix
  let dul := sepList c1 iy ix
  let dvl := sepList c2 iy ix
  let sf := List.zipWith
    (fun uv xy =>
      delta_parallel uv.1 uv.2 xy.1 xy.2 (normFloored sq xy.1 xy.2) ^ n *
        delta_perp uv.1 uv.2 xy.1 xy.2 (normFloored sq xy.1 xy.2) ^ k)
    (dul.zip dvl) (dxl.zip dyl)
  (nanmean sf, nanmean dxl, nanmean dyl)

/-- Kernel calc_longitudinal_scalar_2d (lines 520-615) at one offset:
`sf_val = delta_parallel ** n * dscalar ** k`. -/
def calc_longitudinal_scalar_2d (sq : ℚ → ℚ) (xc yc c1 c2 sc : Grid)
    (n k : ℕ) (iy ix : ℕ) : Option ℚ × Option ℚ × Option ℚ :=
  let dxl := sepList xc iy ix
  let dyl := sepList yc iy ix
  let dul := sepList c1 iy ix
  let dvl := sepList c2 iy ix
  let dsl := sepList sc iy ix
  let sf := List.zipWith
    (fun uvs xy =>
      delta_parallel uvs.1.1 uvs.1.2 xy.1 xy.2 (normFloored sq xy.1 xy.2) ^ n *
        uvs.2 ^ k)
    ((dul.zip dvl).zip dsl) (dxl.zip dyl)
  (nanmean sf, nanmean dxl, nanmean dyl)

/-- Kernel calc_transverse_scalar_2d (lines 618-713) at one offset:
`sf_val = delta_perp ** n * dscalar ** k`. -/
def calc_transverse_scalar_2d (sq : ℚ → ℚ) (xc yc c1 c2 sc : Grid)
    (n k : ℕ) (iy ix : ℕ) : Option ℚ × Option ℚ × Option ℚ :=
  let dxl := sepList xc iy ix
  let dyl := sepList yc iy ix
  let dul := sepList c1 iy ix
  let dvl := sepList c2 iy ix
  let dsl := sepList sc iy ix
  let sf := List.zipWith
    (fun uvs xy =>
      delta_perp uvs.1.1 uvs.1.2 xy.1 xy.2 (normFloored sq xy.1 xy.2) ^ n *
        uvs.2 ^ k)
    ((dul.zip dvl).zip dsl) (dxl.zip dyl)
  (nanmean sf, nanmean dxl, nanmean dyl)

/-- Kernel calc_advective_2d (lines 715-846) at one offset:
`sf_val = (dcomp1 * dadvcomp1 + dcomp2 * dadvcomp2) ** order`. -/
def calc_advective_2d (xc yc c1 c2 a1 a2 : Grid) (order : ℕ)
    (iy ix : ℕ) : Option ℚ × Option ℚ × Option ℚ :=
  let dxl := sepList xc iy ix
  let dyl := sepList yc iy ix
  let dul := sepList c1 iy ix
  let dvl := sepList c2 iy ix
  let da1 := sepList a1 iy ix
  let da2 := sepList a2 iy ix
  let sf := List.zipWith
    (fun uv ab => (uv.1 * ab.1 + uv.2 * ab.2) ^ order)
    (dul.zip dvl) (da1.zip da2)
  (nanmean sf, nanmean dxl, nanmean dyl)

/-- CLAIM C3.  For every field subset, cyclic-shift offset and grid point,
the per-point longitudinal projection computed by calc_longitudinal_2d and
the per-point transverse projection computed by calc_transverse_2d over the
same per-point inputs (du, dv, dx, dy) satisfy
longitudinal^2 + transverse^2 = du^2 + dv^2, provided the separation norm
is not below the 1e-10 floor (so that the divisor is the true norm
sqrt(dx^2 + dy^2), supplied here by the oracle hypotheses). -/
theorem C3_orthogonality (sq : ℚ → ℚ) (du dv dx dy : ℚ)
    (hnn : 0 ≤ sq (dx ^ 2 + dy ^ 2))
    (hsq : sq (dx ^ 2 + dy ^ 2) ^ 2 = dx ^ 2 + dy ^ 2)
    (hfloor : 1 / 10 ^ 10 ≤ sq (dx ^ 2 + dy ^ 2)) :
    delta_parallel du dv dx dy (normFloored sq dx dy) ^ 2 +
      delta_perp du dv dx dy (normFloored sq dx dy) ^ 2 =
    du ^ 2 + dv ^ 2 := by
  have heps : (0:ℚ) < 1 / 10 ^ 10 := by norm_num
  have hmax : normFloored sq dx dy = sq (dx ^ 2 + dy ^ 2) := by
    unfold normFloored
    exact max_eq_left hfloor
  set n := sq (dx ^ 2 + dy ^ 2) with hn
  have hpos : 0 < n := lt_of_lt_of_le heps hfloor
  have hne : n ≠ 0 := ne_of_gt hpos
  rw [hmax]
  unfold delta_parallel delta_perp
  have key : (du * (dx / n) + dv * (dy / n)) ^ 2 +
      (du * (dy / n) - dv * (dx / n)) ^ 2 =
      (du ^ 2 + dv ^ 2) * (dx ^ 2 + dy ^ 2) / n ^ 2 := by
    field_simp
    ring
  rw [key, ← hsq]
  field_simp

/-- Witness for C3 at the concrete point du = 1, dv = 2, dx = 3, dy = 4 with
the constant root oracle returning 5 (indeed 5^2 = 3^2 + 4^2). -/
theorem C3_orthogonality_witness :
    (0:ℚ) ≤ (fun _ : ℚ => (5:ℚ)) ((3:ℚ) ^ 2 + 4 ^ 2) ∧
    ((fun _ : ℚ => (5:ℚ)) ((3:ℚ) ^ 2 + 4 ^ 2)) ^ 2 = (3:ℚ) ^ 2 + 4 ^ 2 ∧
    (1:ℚ) / 10 ^ 10 ≤ (fun _ : ℚ => (5:ℚ)) ((3:ℚ) ^ 2 + 4 ^ 2) ∧
    delta_parallel 1 2 3 4 (normFloored (fun _ => 5) 3 4) ^ 2 +
      delta_perp 1 2 3 4 (normFloored (fun _ => 5) 3 4) ^ 2 =
    (1:ℚ) ^ 2 + 2 ^ 2 :=
  ⟨by norm_num, by norm_num, by norm_num,
    C3_orthogonality (fun _ => 5) 1 2 3 4 (by norm_num) (by norm_num)
      (by norm_num)⟩

/-! ### Zero-offset behaviour of the kernels (claim C6) -/

/-- Elementwise difference of a list with itself is the all-zero list. -/
theorem zipWith_sub_self (l : List ℚ) :
    List.zipWith (fun p q => p - q) l l = l.map (fun _ => (0:ℚ)) := by
  induction l with
  | nil => rfl
  | cons a t ih => simp [ih]

/-- Cyclic shift by offset (0, 0) is the identity. -/
theorem fastShift2d_zero (a : Grid) : fastShift2d a 0 0 = a := by
  simp [fastShift2d]

/-- Elementwise self-difference of a grid is the all-zero grid. -/
theorem elemSub_self (g : Grid) :
    elemSub g g = g.map (fun r => r.map (fun _ => (0:ℚ))) := by
  unfold elemSub
  induction g with
  | nil => rfl
  | cons r t ih => simp [ih, zipWith_sub_self]

/-- At offset (0, 0) every per-point difference field is identically zero. -/
theorem sepList_zero (a : Grid) :
    sepList a 0 0 = (flat a).map (fun _ => (0:ℚ)) := by
  unfold sepList
  rw [fastShift2d_zero, elemSub_self, flat, flat, List.map_flatten]

/-- Mean of a nonempty all-zero list is zero. -/
theorem nanmean_all_zero (l : List ℚ) (hne : l ≠ [])
    (hz : ∀ x ∈ l, x = 0) : nanmean l = some 0 := by
  unfold nanmean
  rw [if_neg (by simpa using hne)]
  rw [List.sum_eq_zero hz, zero_div]

/-- Mean of a nonempty constant-zero image is zero. -/
theorem nanmean_zeros (l : List ℚ) (hne : l ≠ []) :
    nanmean (l.map (fun _ => (0:ℚ))) = some 0 := by
  apply nanmean_all_zero
  · simpa using hne
  · intro x hx
    obtain ⟨a, _, rfl⟩ := List.mem_map.mp hx
    rfl

/-- Every member of a zipWith is the image of members of the two lists. -/
theorem mem_of_zipWith {α β γ : Type} (f : α → β → γ) (l₁ : List α)
    (l₂ : List β) (x : γ) (h : x ∈ List.zipWith f l₁ l₂) :
    ∃ a ∈ l₁, ∃ b ∈ l₂, x = f a b := by
  induction l₁ generalizing l₂ with
  | nil => simp at h
  | cons a t ih =>
    cases l₂ with
    | nil => simp at h
    | cons b t2 =>
      simp only [List.zipWith_cons_cons, List.mem_cons] at h
      rcases h with h | h
      · exact ⟨a, List.mem_cons_self .., b, List.mem_cons_self .., h⟩
      · obtain ⟨p, hp, q, hq, he⟩ := ih t2 h
        exact ⟨p, List.mem_cons_of_mem _ hp, q, List.mem_cons_of_mem _ hq, he⟩

/-- Members of a zipWith over two zips of constant-zero lists are the value
of the combining function at ((0,0), (0,0)). -/
theorem all_zero_zip_zip (f : ℚ × ℚ → ℚ × ℚ → ℚ)
    (hf : f (0, 0) (0, 0) = 0) (u v x y : List ℚ) :
    ∀ w ∈ List.zipWith f
      ((u.map (fun _ => (0:ℚ))).zip (v.map (fun _ => (0:ℚ))))
      ((x.map (fun _ => (0:ℚ))).zip (y.map (fun _ => (0:ℚ)))), w = 0 := by
  intro w hw
  obtain ⟨a, ha, b, hb, rfl⟩ := mem_of_zipWith _ _ _ _ hw
  have ha1 : a.1 = 0 := by
    obtain ⟨c, -, h⟩ := List.mem_map.mp (List.of_mem_zip ha).1
    exact h.symm
  have ha2 : a.2 = 0 := by
    obtain ⟨c, -, h⟩ := List.mem_map.mp (List.of_mem_zip ha).2
    exact h.symm
  have hb1 : b.1 = 0 := by
    obtain ⟨c, -, h⟩ := List.mem_map.mp (List.of_mem_zip hb).1
    exact h.symm
  have hb2 : b.2 = 0 := by
    obtain ⟨c, -, h⟩ := List.mem_map.mp (List.of_mem_zip hb).2
    exact h.symm
  have hpa : a = ((0:ℚ), (0:ℚ)) := Prod.ext ha1 ha2
  have hpb : b = ((0:ℚ), (0:ℚ)) := Prod.ext hb1 hb2
  rw [hpa, hpb, hf]

/-- Nonemptiness of a zipWith over two zips of nonempty lists. -/
theorem zipWith_zip_ne_nil (f : ℚ × ℚ → ℚ × ℚ → ℚ) (u v x y : List ℚ)
    (hu : u ≠ []) (hv : v ≠ []) (hx : x ≠ []) (hy : y ≠ []) :
    List.zipWith f (u.zip v) (x.zip y) ≠ [] := by
  intro h
  rcases List.zipWith_eq_nil_iff.mp h with h2 | h2 <;>
    rw [List.zip_eq_nil_iff] at h2 <;> tauto

/-- Longitudinal projection of the zero vector is zero, whatever the norm. -/
theorem delta_parallel_zero (m : ℚ) : delta_parallel 0 0 0 0 m = 0 := by
  simp [delta_parallel]

/-- Transverse projection of the zero vector is zero, whatever the norm. -/
theorem delta_perp_zero (m : ℚ) : delta_perp 0 0 0 0 m = 0 := by
  simp [delta_perp]

/-- Nonemptiness of the constant-zero image of a nonempty list. -/
theorem map_zero_ne_nil (l : List ℚ) (h : l ≠ []) :
    l.map (fun _ => (0:ℚ)) ≠ [] := by
  simpa using h

/-- Kernel calc_longitudinal_2d at offset (0, 0): zero separations and zero
structure-function value. -/
theorem calc_longitudinal_2d_zero (sq : ℚ → ℚ) (xc yc c1 c2 : Grid)
    (order : ℕ) (ho : 1 ≤ order) (hxc : flat xc ≠ []) (hyc : flat yc ≠ [])
    (hc1 : flat c1 ≠ []) (hc2 : flat c2 ≠ []) :
    calc_longitudinal_2d sq xc yc c1 c2 order 0 0 = (some 0, some 0, some 0) := by
  simp only [calc_longitudinal_2d, sepList_zero, Prod.mk.injEq]
  refine ⟨?_, ?_, ?_⟩
  · apply nanmean_all_zero
    · exact zipWith_zip_ne_nil _ _ _ _ _ (map_zero_ne_nil _ hc1)
        (map_zero_ne_nil _ hc2) (map_zero_ne_nil _ hxc) (map_zero_ne_nil _ hyc)
    · apply all_zero_zip_zip
      rw [delta_parallel_zero]
      exact zero_pow (by omega)
  · exact nanmean_zeros _ hxc
  · exact nanmean_zeros _ hyc

/-- Kernel calc_transverse_2d at offset (0, 0). -/
theorem calc_transverse_2d_zero (sq : ℚ → ℚ) (xc yc c1 c2 : Grid)
    (order : ℕ) (ho : 1 ≤ order) (hxc : flat xc ≠ []) (hyc : flat yc ≠ [])
    (hc1 : flat c1 ≠ []) (hc2 : flat c2 ≠ []) :
    calc_transverse_2d sq xc yc c1 c2 order 0 0 = (some 0, some 0, some 0) := by
  simp only [calc_transverse_2d, sepList_zero, Prod.mk.injEq]
  refine ⟨?_, ?_, ?_⟩
  · apply nanmean_all_zero
    · exact zipWith_zip_ne_nil _ _ _ _ _ (map_zero_ne_nil _ hc1)
        (map_zero_ne_nil _ hc2) (map_zero_ne_nil _ hxc) (map_zero_ne_nil _ hyc)
    · apply all_zero_zip_zip
      rw [delta_perp_zero]
      exact zero_pow (by omega)
  · exact nanmean_zeros _ hxc
  · exact nanmean_zeros _ hyc

/-- Kernel calc_default_vel_2d at offset (0, 0). -/
theorem calc_default_vel_2d_zero (xc yc c1 c2 : Grid)
    (order : ℕ) (ho : 1 ≤ order) (hxc : flat xc ≠ []) (hyc : flat yc ≠ [])
    (hc1 : flat c1 ≠ []) (hc2 : flat c2 ≠ []) :
    calc_default_vel_2d xc yc c1 c2 order 0 0 = (some 0, some 0, some 0) := by
  simp only [calc_default_vel_2d, sepList_zero, Prod.mk.injEq]
  refine ⟨?_, ?_, ?_⟩
  · apply nanmean_all_zero
    · intro h
      rcases List.zipWith_eq_nil_iff.mp h with h2 | h2
      · exact map_zero_ne_nil _ hc1 h2
      · exact map_zero_ne_nil _ hc2 h2
    · intro w hw
      obtain ⟨a, ha, b, hb, rfl⟩ := mem_of_zipWith _ _ _ _ hw
      obtain ⟨p, -, hp⟩ := List.mem_map.mp ha
      obtain ⟨q, -, hq⟩ := List.mem_map.mp hb
      rw [← hp, ← hq]
      rw [zero_pow (by omega : order ≠ 0), add_zero]
  · exact nanmean_zeros _ hxc
  · exact nanmean_zeros _ hyc

/-- Kernel calc_scalar_2d at offset (0, 0). -/
theorem calc_scalar_2d_zero (xc yc sc : Grid)
    (order : ℕ) (ho : 1 ≤ order) (hxc : flat xc ≠ []) (hyc : flat yc ≠ [])
    (hsc : flat sc ≠ []) :
    calc_scalar_2d xc yc sc order 0 0 = (some 0, some 0, some 0) := by
  simp only [calc_scalar_2d, sepList_zero, Prod.mk.injEq]
  refine ⟨?_, ?_, ?_⟩
  · apply nanmean_all_zero
    · simpa using hsc
    · intro w hw
      rw [List.map_map] at hw
      obtain ⟨p, -, hp⟩ := List.mem_map.mp hw
      rw [← hp]
      simp only [Function.comp]
      exact zero_pow (by omega)
  · exact nanmean_zeros _ hxc
  · exact nanmean_zeros _ hyc

/-- Separation outputs of the cross kernels at offset (0, 0) are also zero;
this covers calc_scalar_scalar_2d. -/
theorem calc_scalar_scalar_2d_zero_sep (xc yc s1 s2 : Grid) (n k : ℕ)
    (hxc : flat xc ≠ []) (hyc : flat yc ≠ []) :
    (calc_scalar_scalar_2d xc yc s1 s2 n k 0 0).2 = (some 0, some 0) := by
  simp only [calc_scalar_scalar_2d, sepList_zero, Prod.mk.injEq]
  exact ⟨nanmean_zeros _ hxc, nanmean_zeros _ hyc⟩

/-- Separation outputs of calc_longitudinal_transverse_2d at offset (0, 0). -/
theorem calc_longitudinal_transverse_2d_zero_sep (sq : ℚ → ℚ)
    (xc yc c1 c2 : Grid) (n k : ℕ)
    (hxc : flat xc ≠ []) (hyc : flat yc ≠ []) :
    (calc_longitudinal_transverse_2d sq xc yc c1 c2 n k 0 0).2 =
      (some 0, some 0) := by
  simp only [calc_longitudinal_transverse_2d, sepList_zero, Prod.mk.injEq]
  exact ⟨nanmean_zeros _ hxc, nanmean_zeros _ hyc⟩

/-- Separation outputs of calc_longitudinal_scalar_2d at offset (0, 0). -/
theorem calc_longitudinal_scalar_2d_zero_sep (sq : ℚ → ℚ)
    (xc yc c1 c2 sc : Grid) (n k : ℕ)
    (hxc : flat xc ≠ []) (hyc : flat yc ≠ []) :
    (calc_longitudinal_scalar_2d sq xc yc c1 c2 sc n k 0 0).2 =
      (some 0, some 0) := by
  simp only [calc_longitudinal_scalar_2d, sepList_zero, Prod.mk.injEq]
  exact ⟨nanmean_zeros _ hxc, nanmean_zeros _ hyc⟩

/-- Separation outputs of calc_transverse_scalar_2d at offset (0, 0). -/
theorem calc_transverse_scalar_2d_zero_sep (sq : ℚ → ℚ)
    (xc yc c1 c2 sc : Grid) (n k : ℕ)
    (hxc : flat xc ≠ []) (hyc : flat yc ≠ []) :
    (calc_transverse_scalar_2d sq xc yc c1 c2 sc n k 0 0).2 =
      (some 0, some 0) := by
  simp only [calc_transverse_scalar_2d, sepList_zero, Prod.mk.injEq]
  exact ⟨nanmean_zeros _ hxc, nanmean_zeros _ hyc⟩

/-- Separation outputs of calc_advective_2d at offset (0, 0). -/
theorem calc_advective_2d_zero_sep (xc yc c1 c2 a1 a2 : Grid) (order : ℕ)
    (hxc : flat xc ≠ []) (hyc : flat yc ≠ []) :
    (calc_advective_2d xc yc c1 c2 a1 a2 order 0 0).2 = (some 0, some 0) := by
  simp only [calc_advective_2d, sepList_zero, Prod.mk.injEq]
  exact ⟨nanmean_zeros _ hxc, nanmean_zeros _ hyc⟩

/-- CLAIM C6.  At the cyclic-shift offset (0, 0) every kernel records mean
separation DX = DY = 0; every difference-based kernel (longitudinal,
transverse, scalar, default_vel) additionally records a structure-function
value of exactly 0 for that offset; and the divisor used by the projection
kernels is floored at 1e-10 at this offset, so it is strictly positive and
no division by zero occurs.  The shift `fast_shift_2d` is modelled from the
spec contract for `cyclic_shift` (section 6); at offset (0, 0) any periodic
shift is the identity.  The hypothesis `1 ≤ order` reflects that a
structure function has positive order (the library default is 2). -/
theorem C6_zero_offset (sq : ℚ → ℚ) (xc yc c1 c2 s1 s2 a1 a2 : Grid)
    (order n k : ℕ) (h0 : sq 0 = 0) (ho : 1 ≤ order)
    (hxc : flat xc ≠ []) (hyc : flat yc ≠ [])
    (hc1 : flat c1 ≠ []) (hc2 : flat c2 ≠ []) (hs1 : flat s1 ≠ []) :
    normFloored sq 0 0 = 1 / 10 ^ 10 ∧ (0:ℚ) < normFloored sq 0 0 ∧
    calc_longitudinal_2d sq xc yc c1 c2 order 0 0 = (some 0, some 0, some 0) ∧
    calc_transverse_2d sq xc yc c1 c2 order 0 0 = (some 0, some 0, some 0) ∧
    calc_scalar_2d xc yc s1 order 0 0 = (some 0, some 0, some 0) ∧
    calc_default_vel_2d xc yc c1 c2 order 0 0 = (some 0, some 0, some 0) ∧
    (calc_scalar_scalar_2d xc yc s1 s2 n k 0 0).2 = (some 0, some 0) ∧
    (calc_longitudinal_transverse_2d sq xc yc c1 c2 n k 0 0).2 =
      (some 0, some 0) ∧
    (calc_longitudinal_scalar_2d sq xc yc c1 c2 s1 n k 0 0).2 =
      (some 0, some 0) ∧
    (calc_transverse_scalar_2d sq xc yc c1 c2 s1 n k 0 0).2 =
      (some 0, some 0) ∧
    (calc_advective_2d xc yc c1 c2 a1 a2 order 0 0).2 = (some 0, some 0) := by
  have hnorm : normFloored sq 0 0 = 1 / 10 ^ 10 := by
    unfold normFloored
    have h00 : (0:ℚ) ^ 2 + 0 ^ 2 = 0 := by norm_num
    rw [h00, h0]
    exact max_eq_right (by norm_num)
  refine ⟨hnorm, ?_, ?_, ?_, ?_, ?_, ?_, ?_, ?_, ?_, ?_⟩
  · rw [hnorm]; norm_num
  · exact calc_longitudinal_2d_zero sq xc yc c1 c2 order ho hxc hyc hc1 hc2
  · exact calc_transverse_2d_zero sq xc yc c1 c2 order ho hxc hyc hc1 hc2
  · exact calc_scalar_2d_zero xc yc s1 order ho hxc hyc hs1
  · exact calc_default_vel_2d_zero xc yc c1 c2 order ho hxc hyc hc1 hc2
  · exact calc_scalar_scalar_2d_zero_sep xc yc s1 s2 n k hxc hyc
  · exact calc_longitudinal_transverse_2d_zero_sep sq xc yc c1 c2 n k hxc hyc
  · exact calc_longitudinal_scalar_2d_zero_sep sq xc yc c1 c2 s1 n k hxc hyc
  · exact calc_transverse_scalar_2d_zero_sep sq xc yc c1 c2 s1 n k hxc hyc
  · exact calc_advective_2d_zero_sep xc yc c1 c2 a1 a2 order hxc hyc

/-- Witness for C6 on the concrete one-point grids [[1]], [[2]], [[3]],
[[4]], [[5]], [[6]], [[7]], [[8]] with the zero root oracle and order 2. -/
theorem C6_zero_offset_witness :
    (fun _ : ℚ => (0:ℚ)) 0 = 0 ∧ 1 ≤ 2 ∧
    flat [[(1:ℚ)]] ≠ [] ∧ flat [[(2:ℚ)]] ≠ [] ∧ flat [[(3:ℚ)]] ≠ [] ∧
    flat [[(4:ℚ)]] ≠ [] ∧ flat [[(5:ℚ)]] ≠ [] ∧
    (normFloored (fun _ => 0) 0 0 = 1 / 10 ^ 10 ∧
      (0:ℚ) < normFloored (fun _ => 0) 0 0 ∧
      calc_longitudinal_2d (fun _ => 0) [[1]] [[2]] [[3]] [[4]] 2 0 0 =
        (some 0, some 0, some 0) ∧
      calc_transverse_2d (fun _ => 0) [[1]] [[2]] [[3]] [[4]] 2 0 0 =
        (some 0, some 0, some 0) ∧
      calc_scalar_2d [[1]] [[2]] [[5]] 2 0 0 = (some 0, some 0, some 0) ∧
      calc_default_vel_2d [[1]] [[2]] [[3]] [[4]] 2 0 0 =
        (some 0, some 0, some 0) ∧
      (calc_scalar_scalar_2d [[1]] [[2]] [[5]] [[6]] 1 1 0 0).2 =
        (some 0, some 0) ∧
      (calc_longitudinal_transverse_2d (fun _ => 0) [[1]] [[2]] [[3]] [[4]]
        1 1 0 0).2 = (some 0, some 0) ∧
      (calc_longitudinal_scalar_2d (fun _ => 0) [[1]] [[2]] [[3]] [[4]] [[5]]
        1 1 0 0).2 = (some 0, some 0) ∧
      (calc_transverse_scalar_2d (fun _ => 0) [[1]] [[2]] [[3]] [[4]] [[5]]
        1 1 0 0).2 = (some 0, some 0) ∧
      (calc_advective_2d [[1]] [[2]] [[3]] [[4]] [[7]] [[8]] 2 0 0).2 =
        (some 0, some 0)) :=
  ⟨rfl, by omega, by simp [flat], by simp [flat], by simp [flat],
    by simp [flat], by simp [flat],
    C6_zero_offset (fun _ => 0) [[1]] [[2]] [[3]] [[4]] [[5]] [[6]] [[7]] [[8]]
      2 1 1 rfl (by omega) (by simp [flat]) (by simp [flat]) (by simp [flat])
      (by simp [flat]) (by simp [flat])⟩

/-! ### Bin assignment by digitize and clip (claim C9)

Both engines assign a coordinate to a bin with
`np.clip(np.digitize(v, edges) - 1, 0, nBins - 1)`
(two_dimensional.py lines 1425-1426, 1291-1292, 2101-2102, 1840-1841).
For monotonically increasing edges, `np.digitize(v, edges)` is the number
of edges that are ≤ v.  Natural-number subtraction truncates at 0, which
is exactly the lower clip. -/

/-- Model of `np.digitize(x, edges)` for increasing edges: the count of
edges not exceeding x. -/
def digitize (x : ℚ) (edges : List ℚ) : ℕ :=
  (edges.filter (fun e => decide (e ≤ x))).length

/-- Model of `np.clip(np.digitize(x, edges) - 1, 0, nBins - 1)`. -/
def binIndexClip (x : ℚ) (edges : List ℚ) (nBins : ℕ) : ℕ :=
  min (digitize x edges - 1) (nBins - 1)

/-- CLAIM C9.  Every valid sample point is assigned to some bin: with
nBins = edges.length - 1 bins, the clipped index is always a valid bin
index; a coordinate below every edge lands in the first bin (index 0) and
a coordinate at or above every edge lands in the last bin (index
nBins - 1), rather than being discarded.  The same 1D assignment is applied
per axis by the grid engine (to DX and DY) and by the isotropic engine
(to r and theta). -/
theorem C9_clip_binning (x : ℚ) (edges : List ℚ)
    (hsorted : edges.Sorted (fun p q => p < q)) (hlen : 2 ≤ edges.length) :
    binIndexClip x edges (edges.length - 1) < edges.length - 1 ∧
    ((∀ e ∈ edges, x < e) → binIndexClip x edges (edges.length - 1) = 0) ∧
    ((∀ e ∈ edges, e ≤ x) →
      binIndexClip x edges (edges.length - 1) = edges.length - 2) := by
  refine ⟨?_, ?_, ?_⟩
  · have hd : digitize x edges ≤ edges.length := by
      unfold digitize
      exact List.length_filter_le _ _
    unfold binIndexClip
    omega
  · intro hbelow
    have hd : digitize x edges = 0 := by
      unfold digitize
      rw [List.filter_eq_nil_iff.mpr]
      · rfl
      · intro e he
        simpa using not_le.mpr (hbelow e he)
    unfold binIndexClip
    omega
  · intro habove
    have hd : digitize x edges = edges.length := by
      unfold digitize
      rw [List.filter_eq_self.mpr]
      intro e he
      simpa using habove e he
    unfold binIndexClip
    omega

/-- Witness for C9 with edges [1, 2, 3] at the out-of-range coordinates
x = 0 (below) and x = 5 (above). -/
theorem C9_clip_binning_witness :
    List.Sorted (fun p q : ℚ => p < q) [1, 2, 3] ∧
    2 ≤ ([(1:ℚ), 2, 3]).length ∧
    binIndexClip 0 [1, 2, 3] 2 = 0 ∧
    binIndexClip 5 [1, 2, 3] 2 = 1 ∧
    binIndexClip (3/2) [1, 2, 3] 2 < 2 :=
  ⟨by decide, by decide,
    (C9_clip_binning 0 [1, 2, 3] (by decide) (by decide)).2.1 (by decide),
    (C9_clip_binning 5 [1, 2, 3] (by decide) (by decide)).2.2 (by decide),
    by
      have h := (C9_clip_binning (3/2) [1, 2, 3] (by decide) (by decide)).1
      simpa using h⟩

/-! ### Monte Carlo batch counts (claim C4)

Model of the control flow of monte_carlo_simulation_2d
(two_dimensional.py lines 982-1165).  The per-draw computation
(`simulate_bootstrap`, a call of calculate_structure_function_2d) is
abstracted into `bootBatch : ℕ → β`, and the single full-dataset
evaluation into `fullBatch : β`.  The validity tests mirror the source:
with one bootstrappable dimension the guard is
`not indexes or dim not in indexes or indexes[dim].shape[1] == 0`,
abstracted as `validColsOne = 0`; with two bootstrappable dimensions the
guards are `indexes[dims[0]].shape[1] > 0` and `indexes[dims[1]].shape[1] > 0`,
abstracted as `validColsY` and `validColsX`.  The parallel map over
`range(nbootstrap)` preserves order and multiplicity. -/

/-- Control-flow model of monte_carlo_simulation_2d: the list of returned
structure-function batches. -/
def monte_carlo_simulation_2d {β : Type} (numBootstrappable : ℕ)
    (validColsOne validColsY validColsX : ℕ) (nbootstrap : ℕ)
    (fullBatch : β) (bootBatch : ℕ → β) : List β :=
  if numBootstrappable = 0 then
    [fullBatch]
  else if numBootstrappable = 1 then
    if validColsOne = 0 then
      [fullBatch]
    else
      (List.range nbootstrap).map bootBatch
  else
    if validColsY = 0 ∨ validColsX = 0 then
      [fullBatch]
    else
      (List.range nbootstrap).map bootBatch

/-- CLAIM C4.  monte_carlo_simulation_2d returns exactly one batch computed
from the full dataset in each degenerate case (zero bootstrappable
dimensions, or no usable index-table columns for the requested spacing),
returning normally with a diagnostic message instead of raising; in the
non-degenerate case it returns exactly nbootstrap batches. -/
theorem C4_batch_counts {β : Type} (numBootstrappable : ℕ)
    (validColsOne validColsY validColsX : ℕ) (nbootstrap : ℕ)
    (fullBatch : β) (bootBatch : ℕ → β) :
    (numBootstrappable = 0 →
      monte_carlo_simulation_2d numBootstrappable validColsOne validColsY
        validColsX nbootstrap fullBatch bootBatch = [fullBatch]) ∧
    (numBootstrappable = 1 → validColsOne = 0 →
      monte_carlo_simulation_2d numBootstrappable validColsOne validColsY
        validColsX nbootstrap fullBatch bootBatch = [fullBatch]) ∧
    (2 ≤ numBootstrappable → validColsY = 0 ∨ validColsX = 0 →
      monte_carlo_simulation_2d numBootstrappable validColsOne validColsY
        validColsX nbootstrap fullBatch bootBatch = [fullBatch]) ∧
    (numBootstrappable = 1 → 0 < validColsOne →
      (monte_carlo_simulation_2d numBootstrappable validColsOne validColsY
        validColsX nbootstrap fullBatch bootBatch).length = nbootstrap) ∧
    (2 ≤ numBootstrappable → 0 < validColsY → 0 < validColsX →
      (monte_carlo_simulation_2d numBootstrappable validColsOne validColsY
        validColsX nbootstrap fullBatch bootBatch).length = nbootstrap) := by
  refine ⟨?_, ?_, ?_, ?_, ?_⟩
  · intro h
    simp [monte_carlo_simulation_2d, h]
  · intro h1 h2
    simp [monte_carlo_simulation_2d, h1, h2]
  · intro h1 h2
    have hne0 : numBootstrappable ≠ 0 := by omega
    have hne1 : numBootstrappable ≠ 1 := by omega
    simp [monte_carlo_simulation_2d, hne0, hne1, h2]
  · intro h1 h2
    simp [monte_carlo_simulation_2d, h1, Nat.pos_iff_ne_zero.mp h2]
  · intro h1 h2 h3
    have hne0 : numBootstrappable ≠ 0 := by omega
    have hne1 : numBootstrappable ≠ 1 := by omega
    simp [monte_carlo_simulation_2d, hne0, hne1,
      Nat.pos_iff_ne_zero.mp h2, Nat.pos_iff_ne_zero.mp h3]

/-- Witness for C4: with zero bootstrappable dimensions one batch is
returned; with two bootstrappable dimensions, no valid y-columns forces the
single full-dataset batch; with valid columns, 7 bootstraps yield 7
batches. -/
theorem C4_batch_counts_witness :
    monte_carlo_simulation_2d 0 5 5 5 7 (0:ℕ) id = [0] ∧
    monte_carlo_simulation_2d 2 5 0 4 7 (0:ℕ) id = [0] ∧
    (monte_carlo_simulation_2d 2 5 3 4 7 (0:ℕ) id).length = 7 :=
  ⟨(C4_batch_counts 0 5 5 5 7 (0:ℕ) id).1 rfl,
    (C4_batch_counts 2 5 0 4 7 (0:ℕ) id).2.2.1 (by omega) (Or.inl rfl),
    (C4_batch_counts 2 5 3 4 7 (0:ℕ) id).2.2.2.2 (by omega) (by omega)
      (by omega)⟩

/-! ### Determinism of the bootstrap draws (claim C5)

monte_carlo_simulation_2d calls `np.random.seed(10000000)` (line 1055)
before drawing the bootstrap indices with `np.random.choice` (lines 1085,
1136-1137).  The numpy global generator is modelled as a state in ℕ
threaded through the draws (the exact PRNG recurrence is irrelevant to the
claim; a linear congruential step stands in for it).  A run of a binning
engine is modelled as an arbitrary deterministic aggregation `engine` of
the drawn index sequence; the ambient generator state a run starts from is
the only run-to-run varying input, and the seed call discards it. -/

/-- Linear congruential stand-in for one step of the numpy generator. -/
def lcgNext (s : ℕ) : ℕ :=
  (6364136223846793005 * s + 1442695040888963407) % (2 ^ 64)

/-- Stand-in for one `np.random.choice(cols)` draw from state s. -/
def npChoice (s cols : ℕ) : ℕ :=
  s % cols

/-- Sequence of `count` bootstrap draws from generator state s. -/
def drawList (s cols : ℕ) : ℕ → List ℕ
  | 0 => []
  | count + 1 => npChoice s cols :: drawList (lcgNext s) cols count

/-- Fixed seed installed by `np.random.seed(10000000)` (line 1055). -/
def fixedSeed : ℕ := 10000000

/-- Bootstrap index draws of one monte_carlo_simulation_2d call: the seed
call replaces the ambient generator state with the fixed seed before any
draw, so `ambient` is dead. -/
def monteCarloDraws (ambient cols nbootstrap : ℕ) : List ℕ :=
  drawList fixedSeed cols nbootstrap

/-- Per-bin statistics of one engine run, as a deterministic aggregation of
the drawn bootstrap indices (the kernels, binning and accumulator updates
of the engines are deterministic functions of the draws and of the fixed
dataset, evaluated in a fixed order). -/
def runBinnedStats {σ : Type} (engine : List ℕ → σ)
    (ambient cols nbootstrap : ℕ) : σ :=
  engine (monteCarloDraws ambient cols nbootstrap)

/-- CLAIM C5.  Two runs of a binning engine with identical inputs produce
identical per-bin statistics whatever ambient generator states the two
runs start from, because every bootstrap draw is made from the fixed
global random seed; the draw stream itself is the fixed-seed stream.  The
final conjunct shows the model is not vacuous: without the seed reset two
ambient states can yield different draws. -/
theorem C5_determinism {σ : Type} (engine : List ℕ → σ)
    (ambient1 ambient2 cols nbootstrap : ℕ) :
    runBinnedStats engine ambient1 cols nbootstrap =
      runBinnedStats engine ambient2 cols nbootstrap ∧
    monteCarloDraws ambient1 cols nbootstrap =
      drawList fixedSeed cols nbootstrap ∧
    drawList 0 2 1 ≠ drawList 1 2 1 := by
  refine ⟨rfl, rfl, ?_⟩
  intro h
  have h0 : drawList 0 2 1 = [0] := by
    simp [drawList, npChoice]
  have h1 : drawList 1 2 1 = [1] := by
    simp [drawList, npChoice]
  rw [h0, h1] at h
  simp at h

/-- Witness for C5 at a concrete engine (the batch count) and two distinct
ambient generator states. -/
theorem C5_determinism_witness :
    runBinnedStats (fun l : List ℕ => l.length) 3 5 4 =
      runBinnedStats (fun l : List ℕ => l.length) 9 5 4 :=
  (C5_determinism (fun l : List ℕ => l.length) 3 9 5 4).1

/-! ### Per-bin accumulators and statistics (claims C7, C8, C10)

Per-bin slice of the accumulator arrays of the binning engines:
sf_totals, sf_sq_totals, weight_totals, point_counts
(two_dimensional.py lines 1364-1367 and 2020-2023). -/

/-- Accumulator state of one bin. -/
structure BinAcc where
  sf_totals : ℚ
  sf_sq_totals : ℚ
  weight_totals : ℕ
  point_counts : ℕ

/-- Mean of one bin as computed by calculate_bin_statistics (lines
1514-1530 and 2212-2236): defined only for bins with weight_totals > 0,
NaN (none) otherwise. -/
def binMean (a : BinAcc) : Option ℚ :=
  if 0 < a.weight_totals then some (a.sf_totals / (a.weight_totals : ℚ))
  else none

/-- Raw variance expression of calculate_bin_statistics:
sf_sq_totals / weight_totals - mean^2. -/
def binVariance (a : BinAcc) : ℚ :=
  a.sf_sq_totals / (a.weight_totals : ℚ) -
    (a.sf_totals / (a.weight_totals : ℚ)) ^ 2

/-- Standard deviation of one bin as computed by calculate_bin_statistics:
sqrt(max 0 variance) for bins with weight_totals > 1, NaN (none)
otherwise.  The square root is supplied by the oracle `sq`. -/
def binStd (sq : ℚ → ℚ) (a : BinAcc) : Option ℚ :=
  if 1 < a.weight_totals then some (sq (max 0 (binVariance a))) else none

/-- Convergence marking applied to a bin right after the initial sampling
phase (lines 1536-1549 and 2242-2255): point_counts ≤ 10, or NaN standard
deviation, or std ≤ eps with more than 10 points. -/
def initialStatus (sq : ℚ → ℚ) (eps : ℚ) (a : BinAcc) : Bool :=
  decide (a.point_counts ≤ 10) || (binStd sq a).isNone ||
    (stdLe (binStd sq a) eps && decide (10 < a.point_counts))

/-- Upper confidence bound of the bootstrapped isotropic path (lines
2427-2440): mean + z * std / sqrt(weight_totals) for bins with data,
NaN-propagating through the std (numpy arithmetic with NaN yields NaN). -/
def ciUpperFinal (sq : ℚ → ℚ) (z : ℚ) (a : BinAcc) : Option ℚ :=
  if 0 < a.weight_totals then
    (binStd sq a).map
      (fun sd => a.sf_totals / (a.weight_totals : ℚ) +
        z * sd / sq (a.weight_totals : ℚ))
  else none

/-- Lower confidence bound of the bootstrapped isotropic path. -/
def ciLowerFinal (sq : ℚ → ℚ) (z : ℚ) (a : BinAcc) : Option ℚ :=
  if 0 < a.weight_totals then
    (binStd sq a).map
      (fun sd => a.sf_totals / (a.weight_totals : ℚ) -
        z * sd / sq (a.weight_totals : ℚ))
  else none

/-! ### Confidence intervals of the zero-bootstrappable isotropic branch
(claims C8, C10)

In get_isotropic_sf_2d with num_bootstrappable == 0, local arrays are
computed per bin with non-NaN mean (lines 1894-1915):
`ci_upper = mean + z*std/sqrt(point_count)` for bins with more than one
point, `ci_lower = mean - z*std/sqrt(point_count)`, and both collapse to
the mean for bins with exactly one point.  The output dataset then stores
the local array ci_lower under the name ci_upper and vice versa (lines
1984-1985). -/

/-- Local variable ci_upper of the zero-bootstrappable branch, per bin;
sqrtPc stands for sqrt(point_count). -/
def isoNB_ci_upper (z sqrtPc mean sd : ℚ) (pcount : ℕ) : Option ℚ :=
  if 1 < pcount then some (mean + z * sd / sqrtPc)
  else if pcount = 1 then some mean
  else none

/-- Local variable ci_lower of the zero-bootstrappable branch, per bin. -/
def isoNB_ci_lower (z sqrtPc mean sd : ℚ) (pcount : ℕ) : Option ℚ :=
  if 1 < pcount then some (mean - z * sd / sqrtPc)
  else if pcount = 1 then some mean
  else none

/-- Output variable named ci_upper: the dataset construction stores the
local ci_lower array under it (line 1984). -/
def isoNB_out_ciUpper (z sqrtPc mean sd : ℚ) (pcount : ℕ) : Option ℚ :=
  isoNB_ci_lower z sqrtPc mean sd pcount

/-- Output variable named ci_lower: the dataset construction stores the
local ci_upper array under it (line 1985). -/
def isoNB_out_ciLower (z sqrtPc mean sd : ℚ) (pcount : ℕ) : Option ℚ :=
  isoNB_ci_upper z sqrtPc mean sd pcount

/-- Counterexample to CLAIM C8: a radial bin fed by exactly one
contributing batch (weight_totals = 1, here with 7 raw points and
accumulated weighted batch value 3) has NaN standard deviation as claimed,
but its reported confidence bounds are NaN (mean + z * NaN), not collapsed
to the mean 3: ci_upper differs from the mean. -/
theorem C8_counterexample :
    (⟨3, 9, 1, 7⟩ : BinAcc).weight_totals = 1 ∧
    binStd (fun _ => 0) ⟨3, 9, 1, 7⟩ = none ∧
    binMean ⟨3, 9, 1, 7⟩ = some 3 ∧
    ciUpperFinal (fun _ => 0) (49/25) ⟨3, 9, 1, 7⟩ = none ∧
    ciLowerFinal (fun _ => 0) (49/25) ⟨3, 9, 1, 7⟩ = none ∧
    ciUpperFinal (fun _ => 0) (49/25) ⟨3, 9, 1, 7⟩ ≠ binMean ⟨3, 9, 1, 7⟩ := by
  refine ⟨rfl, ?_, ?_, ?_, ?_, ?_⟩
  · simp [binStd]
  · norm_num [binMean]
  · simp [ciUpperFinal, binStd]
  · simp [ciLowerFinal, binStd]
  · simp [ciUpperFinal, binStd, binMean]

/-- CLAIM C8, amended.  A radial bin with exactly one contributing batch
(weight_totals = 1) has NaN standard deviation, and both its reported
confidence bounds in the bootstrapped isotropic path are NaN rather than
the mean; the collapse of the confidence interval to the mean happens only
in the zero-bootstrappable branch, for bins with exactly one raw point. -/
theorem C8_single_batch (sq : ℚ → ℚ) (z sqrtPc mean sd : ℚ) (a : BinAcc)
    (h : a.weight_totals = 1) :
    binStd sq a = none ∧
    ciUpperFinal sq z a = none ∧
    ciLowerFinal sq z a = none ∧
    isoNB_out_ciUpper z sqrtPc mean sd 1 = some mean ∧
    isoNB_out_ciLower z sqrtPc mean sd 1 = some mean := by
  have hstd : binStd sq a = none := by
    unfold binStd
    rw [if_neg (by omega)]
  refine ⟨hstd, ?_, ?_, ?_, ?_⟩
  · unfold ciUpperFinal
    rw [hstd, if_pos (by omega)]
    rfl
  · unfold ciLowerFinal
    rw [hstd, if_pos (by omega)]
    rfl
  · simp [isoNB_out_ciUpper, isoNB_ci_lower]
  · simp [isoNB_out_ciLower, isoNB_ci_upper]

/-- Witness for the amended C8 at the concrete single-batch accumulator. -/
theorem C8_single_batch_witness :
    (⟨5, 25, 1, 12⟩ : BinAcc).weight_totals = 1 ∧
    (binStd (fun _ => 0) ⟨5, 25, 1, 12⟩ = none ∧
      ciUpperFinal (fun _ => 0) 2 ⟨5, 25, 1, 12⟩ = none ∧
      ciLowerFinal (fun _ => 0) 2 ⟨5, 25, 1, 12⟩ = none ∧
      isoNB_out_ciUpper 2 3 7 1 1 = some 7 ∧
      isoNB_out_ciLower 2 3 7 1 1 = some 7) :=
  ⟨rfl, C8_single_batch (fun _ => 0) 2 3 7 1 ⟨5, 25, 1, 12⟩ rfl⟩

/-- CLAIM C10.  In get_isotropic_sf_2d with zero bootstrappable dimensions
the output variable named ci_upper holds mean - z*std/sqrt(point_count)
and the output variable named ci_lower holds mean + z*std/sqrt(point_count)
(the two bounds are stored under swapped names), so for every bin with
positive std (which entails more than one point, since a one-point bin has
zero weighted deviation) the value of ci_upper is strictly below the value
of ci_lower. -/
theorem C10_swapped_ci (z sqrtPc mean sd : ℚ) (pcount : ℕ)
    (hp : 1 < pcount) (hsd : 0 < sd) (hz : 0 < z) (hw : 0 < sqrtPc) :
    isoNB_out_ciUpper z sqrtPc mean sd pcount =
      some (mean - z * sd / sqrtPc) ∧
    isoNB_out_ciLower z sqrtPc mean sd pcount =
      some (mean + z * sd / sqrtPc) ∧
    mean - z * sd / sqrtPc < mean + z * sd / sqrtPc := by
  refine ⟨?_, ?_, ?_⟩
  · unfold isoNB_out_ciUpper isoNB_ci_lower
    rw [if_pos hp]
  · unfold isoNB_out_ciLower isoNB_ci_upper
    rw [if_pos hp]
  · have hq : 0 < z * sd / sqrtPc := by positivity
    linarith

/-- Witness for C10 at z = 2, sqrt(point_count) = 2, mean = 0, std = 1,
point_count = 4. -/
theorem C10_swapped_ci_witness :
    1 < 4 ∧ (0:ℚ) < 1 ∧ (0:ℚ) < 2 ∧ (0:ℚ) < 2 ∧
    (isoNB_out_ciUpper 2 2 0 1 4 = some ((0:ℚ) - 2 * 1 / 2) ∧
      isoNB_out_ciLower 2 2 0 1 4 = some ((0:ℚ) + 2 * 1 / 2) ∧
      (0:ℚ) - 2 * 1 / 2 < 0 + 2 * 1 / 2) :=
  ⟨by omega, by norm_num, by norm_num, by norm_num,
    C10_swapped_ci 2 2 0 1 4 (by omega) (by norm_num) (by norm_num)
      (by norm_num)⟩

/-- Counterexample to CLAIM C7: the accumulator state of a bin that
received 5 raw points from one batch with positive weight sum
(sf_totals = 2, weight_totals = 1).  The initial marking makes it
CONVERGED as the claim says, but its output mean is 2, not NaN: the mean
is NaN only for bins with no weighted batch contribution. -/
theorem C7_counterexample :
    (⟨2, 4, 1, 5⟩ : BinAcc).point_counts ≤ 10 ∧
    initialStatus (fun _ => 0) (1/10) ⟨2, 4, 1, 5⟩ = true ∧
    binMean ⟨2, 4, 1, 5⟩ = some 2 ∧
    binMean ⟨2, 4, 1, 5⟩ ≠ none := by
  refine ⟨by norm_num, ?_, ?_, ?_⟩
  · simp [initialStatus]
  · norm_num [binMean]
  · simp [binMean]

/-! ### The adaptive refinement loop (claims C1, C2, C7)

Model of the convergence loop shared by bin_sf_2d (lines 1551-1649) and
get_isotropic_sf_2d (lines 2257-2355); the two loops are textually
identical up to the bin index type, so grid bins are flattened to a single
index i : Fin nb.  All quantities frozen before the loop are parameters:
point_counts and bin_density (the refinement calls use
add_to_counts=False, so neither changes inside the loop),
bin_spacing_effectiveness (updated only when add_to_counts is true, hence
frozen), the bootstrap parameters and the convergence threshold.  What the
recomputed standard deviation of the visited bin is after its extra
sampling depends on the data; it is supplied by an oracle indexed by
(round, bin), with none standing for NaN.  Python `int()` and numpy
`.astype(int)` truncate toward zero; every truncated quantity here
(step * proportion with proportion ≥ 0, step_nbootstrap * (1 + 2*density)
with density ≥ 0) is nonnegative, so Nat.floor models them. -/

/-- Stable insertion of x into a list sorted by descending key (equal keys
keep input order, as with the stable Python list sort). -/
def insertDescBy {α : Type} (key : α → ℚ) (x : α) : List α → List α
  | [] => [x]
  | y :: ys =>
    if key y < key x then x :: y :: ys else y :: insertDescBy key x ys

/-- Stable sort by descending key, modelling `sort(key=..., reverse=True)`
and `sorted(..., key=..., reverse=True)`. -/
def sortDescBy {α : Type} (key : α → ℚ) : List α → List α
  | [] => []
  | x :: xs => insertDescBy key x (sortDescBy key xs)

/-- Insertion produces a permutation of consing. -/
theorem insertDescBy_perm {α : Type} (key : α → ℚ) (x : α) (l : List α) :
    List.Perm (insertDescBy key x l) (x :: l) := by
  induction l with
  | nil => exact List.Perm.refl _
  | cons y ys ih =>
    unfold insertDescBy
    split
    · exact List.Perm.refl _
    · exact List.Perm.trans (List.Perm.cons y ih) (List.Perm.swap x y ys)

/-- Sorting produces a permutation of the input. -/
theorem sortDescBy_perm {α : Type} (key : α → ℚ) (l : List α) :
    List.Perm (sortDescBy key l) l := by
  induction l with
  | nil => exact List.Perm.refl _
  | cons x xs ih =>
    exact List.Perm.trans (insertDescBy_perm key x (sortDescBy key xs))
      (List.Perm.cons x ih)

/-- Membership is invariant under the descending sort. -/
theorem mem_sortDescBy {α : Type} (key : α → ℚ) (l : List α) (a : α) :
    a ∈ sortDescBy key l ↔ a ∈ l :=
  (sortDescBy_perm key l).mem_iff

/-- Proportional-allocation inner loop of the refinement rounds (lines
1599-1629 and 2304-2335): iterate over the effectiveness-sorted spacings,
skip nonpositive effectiveness, give each spacing
min(int(step * eff / totalEff), remaining) bootstraps, and break once the
remaining budget hits zero. -/
def allocAux (step : ℕ) (totalEff : ℚ) : List ℚ → ℕ → ℕ → ℕ
  | [], _, total => total
  | e :: rest, remaining, total =>
    if e ≤ 0 then allocAux step totalEff rest remaining total
    else
      let spAdd := min (Nat.floor ((step : ℚ) * (e / totalEff))) remaining
      if remaining - spAdd = 0 then total + spAdd
      else allocAux step totalEff rest (remaining - spAdd) (total + spAdd)

/-- Total number of additional bootstraps allocated to one bin in one
round (`total_additional`), as a function of its adaptive step and its
per-spacing effectiveness values.  The source computes the proportion
inside a `total_effectiveness > 0` guard; the guard branch assigning 0 is
unreachable because any spacing reaching it has positive effectiveness,
which makes the sum of positive effectivenesses positive. -/
def allocate (step : ℕ) (effs : List ℚ) : ℕ :=
  let sorted := sortDescBy id effs
  let totalEff := (sorted.filter (fun e => decide (0 < e))).sum
  allocAux step totalEff sorted step 0

/-- Allocation never hands out more than the presently remaining budget
plus what was already allocated. -/
theorem allocAux_le (step : ℕ) (totalEff : ℚ) (l : List ℚ) :
    ∀ remaining total : ℕ,
      allocAux step totalEff l remaining total ≤ total + remaining := by
  induction l with
  | nil => intro remaining total; simp [allocAux]
  | cons e rest ih =>
    intro remaining total
    unfold allocAux
    split
    · exact ih remaining total
    · dsimp only
      set spAdd := min (Nat.floor ((step : ℚ) * (e / totalEff))) remaining
        with hsp
      have hle : spAdd ≤ remaining := min_le_right _ _
      split
      · omega
      · calc allocAux step totalEff rest (remaining - spAdd) (total + spAdd) ≤
            (total + spAdd) + (remaining - spAdd) := ih _ _
          _ ≤ total + remaining := by omega

/-- Allocation never exceeds the adaptive step of the bin. -/
theorem allocate_le_step (step : ℕ) (effs : List ℚ) :
    allocate step effs ≤ step := by
  unfold allocate
  simpa using allocAux_le step _ (sortDescBy id effs) step 0

/-- Frozen per-bin inputs of the refinement loop. -/
structure LoopParams (nb : ℕ) where
  pc : Fin nb → ℕ
  density : Fin nb → ℚ
  step_nbootstrap : ℕ
  max_nbootstrap : ℕ
  initial_nbootstrap : ℕ
  eps : ℚ
  effs : Fin nb → List ℚ
  oracle : ℕ → Fin nb → Option ℚ

/-- Mutable per-bin state of the refinement loop: consumed bootstraps
(bin_bootstraps) and terminal flag (bin_status). -/
structure LoopState (nb : ℕ) where
  boots : Fin nb → ℕ
  status : Fin nb → Bool

/-- Adaptive step of one bin:
`np.maximum(step_nbootstrap, (step_nbootstrap * (1 + 2*density)).astype(int))`
(lines 1508-1511 and 2206-2209). -/
def bootstrapStep {nb : ℕ} (P : LoopParams nb) (i : Fin nb) : ℕ :=
  max P.step_nbootstrap
    (Nat.floor ((P.step_nbootstrap : ℚ) * (1 + 2 * P.density i)))

/-- Eligibility test of the loop head (lines 1557 and 2263):
`~bin_status & (point_counts > 10) & (bin_bootstraps < max_nbootstrap)`. -/
def unconvergedAt {nb : ℕ} (P : LoopParams nb) (s : LoopState nb)
    (i : Fin nb) : Bool :=
  !s.status i && decide (10 < P.pc i) &&
    decide (s.boots i < P.max_nbootstrap)

/-- Density-ordered list of the bins visited in one round (lines 1564-1571
and 2270-2277). -/
def binList {nb : ℕ} (P : LoopParams nb) (s : LoopState nb) :
    List (Fin nb) :=
  sortDescBy (fun i => P.density i)
    ((List.finRange nb).filter (fun i => unconvergedAt P s i))

/-- Body of one bin visit in round t (lines 1578-1645 and 2284-2351): skip
if already terminal, otherwise allocate `total_additional` bootstraps,
add them to bin_bootstraps, recompute the standard deviation (oracle) and
mark the bin CONVERGED when std ≤ eps, else MAX_BUDGET_REACHED when the
new bootstrap count reached max_nbootstrap. -/
def visit {nb : ℕ} (P : LoopParams nb) (t : ℕ) (s : LoopState nb)
    (i : Fin nb) : LoopState nb :=
  if s.status i then s
  else
    let a := allocate (bootstrapStep P i) (P.effs i)
    let newBoots := s.boots i + a
    let newStatus :=
      stdLe (P.oracle t i) P.eps || decide (P.max_nbootstrap ≤ newBoots)
    ⟨Function.update s.boots i newBoots,
      Function.update s.status i newStatus⟩

/-- One full round of the convergence loop: visit every listed bin in
density order. -/
def roundStep {nb : ℕ} (P : LoopParams nb) (t : ℕ) (s : LoopState nb) :
    LoopState nb :=
  (binList P s).foldl (visit P t) s

/-- State after n rounds. -/
def iterRounds {nb : ℕ} (P : LoopParams nb) : ℕ → LoopState nb → LoopState nb
  | 0, s => s
  | n + 1, s => roundStep P n (iterRounds P n s)

/-- Exit condition of the while loop: no unconverged bin remains. -/
def loopDone {nb : ℕ} (P : LoopParams nb) (s : LoopState nb) : Prop :=
  ∀ i, unconvergedAt P s i = false

/-- Visiting bin i leaves the bootstrap counter of any other bin alone. -/
theorem visit_boots_frame {nb : ℕ} (P : LoopParams nb) (t : ℕ)
    (s : LoopState nb) (i j : Fin nb) (h : j ≠ i) :
    (visit P t s i).boots j = s.boots j := by
  unfold visit
  split
  · rfl
  · exact Function.update_noteq h _ _

/-- Visiting bin i leaves the status of any other bin alone. -/
theorem visit_status_frame {nb : ℕ} (P : LoopParams nb) (t : ℕ)
    (s : LoopState nb) (i j : Fin nb) (h : j ≠ i) :
    (visit P t s i).status j = s.status j := by
  unfold visit
  split
  · rfl
  · exact Function.update_noteq h _ _

/-- A visit never decreases any bootstrap counter. -/
theorem visit_boots_mono {nb : ℕ} (P : LoopParams nb) (t : ℕ)
    (s : LoopState nb) (i j : Fin nb) :
    s.boots j ≤ (visit P t s i).boots j := by
  unfold visit
  split
  · exact le_refl _
  · dsimp only
    by_cases hj : j = i
    · subst hj
      rw [Function.update_same]
      omega
    · rw [Function.update_noteq hj]

/-- A visit never clears a terminal status. -/
theorem visit_status_mono {nb : ℕ} (P : LoopParams nb) (t : ℕ)
    (s : LoopState nb) (i j : Fin nb) (h : s.status j = true) :
    (visit P t s i).status j = true := by
  unfold visit
  split
  · exact h
  · dsimp only
    by_cases hj : j = i
    · subst hj
      exact absurd h (by assumption)
    · rw [Function.update_noteq hj]
      exact h

/-- Visiting a bin whose status is already terminal is a no-op. -/
theorem visit_status_true_eq {nb : ℕ} (P : LoopParams nb) (t : ℕ)
    (s : LoopState nb) (i : Fin nb) (h : s.status i = true) :
    visit P t s i = s := by
  unfold visit
  rw [if_pos h]

/-- Folding visits never decreases a bootstrap counter. -/
theorem foldl_visit_boots_mono {nb : ℕ} (P : LoopParams nb) (t : ℕ)
    (l : List (Fin nb)) :
    ∀ (s : LoopState nb) (j : Fin nb),
      s.boots j ≤ (l.foldl (visit P t) s).boots j := by
  induction l with
  | nil => intro s j; exact le_refl _
  | cons i rest ih =>
    intro s j
    exact le_trans (visit_boots_mono P t s i j) (ih (visit P t s i) j)

/-- Folding visits never clears a terminal status. -/
theorem foldl_visit_status_mono {nb : ℕ} (P : LoopParams nb) (t : ℕ)
    (l : List (Fin nb)) :
    ∀ (s : LoopState nb) (j : Fin nb), s.status j = true →
      (l.foldl (visit P t) s).status j = true := by
  induction l with
  | nil => intro s j h; exact h
  | cons i rest ih =>
    intro s j h
    exact ih (visit P t s i) j (visit_status_mono P t s i j h)

/-- Folding visits over a list not containing j does not touch bin j. -/
theorem foldl_visit_frame {nb : ℕ} (P : LoopParams nb) (t : ℕ)
    (l : List (Fin nb)) :
    ∀ (s : LoopState nb) (j : Fin nb), j ∉ l →
      (l.foldl (visit P t) s).boots j = s.boots j ∧
      (l.foldl (visit P t) s).status j = s.status j := by
  induction l with
  | nil => intro s j _; exact ⟨rfl, rfl⟩
  | cons i rest ih =>
    intro s j hj
    have hji : j ≠ i := fun h => hj (h ▸ List.mem_cons_self ..)
    have hjr : j ∉ rest := fun h => hj (List.mem_cons_of_mem _ h)
    have hrec := ih (visit P t s i) j hjr
    rw [List.foldl_cons]
    exact ⟨hrec.1.trans (visit_boots_frame P t s i j hji),
      hrec.2.trans (visit_status_frame P t s i j hji)⟩

/-- A bin whose status is terminal keeps its bootstrap counter through a
fold of visits. -/
theorem foldl_visit_frozen {nb : ℕ} (P : LoopParams nb) (t : ℕ)
    (l : List (Fin nb)) :
    ∀ (s : LoopState nb) (j : Fin nb), s.status j = true →
      (l.foldl (visit P t) s).boots j = s.boots j := by
  induction l with
  | nil => intro s j _; rfl
  | cons i rest ih =>
    intro s j h
    rw [List.foldl_cons]
    by_cases hj : j = i
    · subst hj
      rw [visit_status_true_eq P t s j h]
      exact ih s j h
    · have hst : (visit P t s i).status j = true := by
        rw [visit_status_frame P t s i j hj]
        exact h
      rw [ih (visit P t s i) j hst]
      exact visit_boots_frame P t s i j hj

/-- Membership in the per-round bin list is exactly the eligibility test. -/
theorem mem_binList {nb : ℕ} (P : LoopParams nb) (s : LoopState nb)
    (i : Fin nb) : i ∈ binList P s ↔ unconvergedAt P s i = true := by
  unfold binList
  rw [mem_sortDescBy]
  simp [List.mem_filter, List.mem_finRange]

/-- The per-round bin list has no duplicates. -/
theorem binList_nodup {nb : ℕ} (P : LoopParams nb) (s : LoopState nb) :
    (binList P s).Nodup := by
  unfold binList
  exact (sortDescBy_perm _ _).nodup_iff.mpr
    (List.Nodup.filter _ (List.nodup_finRange nb))

/-- Eligibility unpacked. -/
theorem unconvergedAt_spec {nb : ℕ} (P : LoopParams nb) (s : LoopState nb)
    (i : Fin nb) (h : unconvergedAt P s i = true) :
    s.status i = false ∧ 10 < P.pc i ∧ s.boots i < P.max_nbootstrap := by
  unfold unconvergedAt at h
  simp only [Bool.and_eq_true, Bool.not_eq_eq_eq_not, Bool.not_true,
    decide_eq_true_eq] at h
  exact ⟨h.1.1, h.1.2, h.2⟩

/-- Visiting a non-terminal bin adds exactly its allocation. -/
theorem visit_self_boots {nb : ℕ} (P : LoopParams nb) (t : ℕ)
    (s : LoopState nb) (i : Fin nb) (h : s.status i = false) :
    (visit P t s i).boots i =
      s.boots i + allocate (bootstrapStep P i) (P.effs i) := by
  unfold visit
  rw [if_neg (by rw [h]; exact Bool.false_ne_true)]
  dsimp only
  rw [Function.update_same]

/-- A round adds exactly the proportional allocation to each listed bin. -/
theorem roundStep_mem_boots {nb : ℕ} (P : LoopParams nb) (t : ℕ)
    (s : LoopState nb) (j : Fin nb) (hmem : j ∈ binList P s) :
    (roundStep P t s).boots j =
      s.boots j + allocate (bootstrapStep P j) (P.effs j) := by
  obtain ⟨l1, l2, hsplit⟩ := List.append_of_mem hmem
  have hnd := binList_nodup P s
  rw [hsplit, List.nodup_middle, List.nodup_cons] at hnd
  have hj1 : j ∉ l1 := fun h => hnd.1 (List.mem_append_left _ h)
  have hj2 : j ∉ l2 := fun h => hnd.1 (List.mem_append_right _ h)
  have hstat : s.status j = false :=
    (unconvergedAt_spec P s j ((mem_binList P s j).mp hmem)).1
  unfold roundStep
  rw [hsplit, List.foldl_append, List.foldl_cons]
  have hf := foldl_visit_frame P t l1 s j hj1
  have hv := visit_self_boots P t (l1.foldl (visit P t) s) j
    (hf.2.trans hstat)
  have hfin := foldl_visit_frame P t l2
    (visit P t (l1.foldl (visit P t) s) j) j hj2
  rw [hfin.1, hv, hf.1]

/-- A round does not touch bins outside its list. -/
theorem roundStep_not_mem {nb : ℕ} (P : LoopParams nb) (t : ℕ)
    (s : LoopState nb) (j : Fin nb) (h : j ∉ binList P s) :
    (roundStep P t s).boots j = s.boots j ∧
    (roundStep P t s).status j = s.status j :=
  foldl_visit_frame P t (binList P s) s j h

/-- A round never decreases a bootstrap counter. -/
theorem roundStep_boots_mono {nb : ℕ} (P : LoopParams nb) (t : ℕ)
    (s : LoopState nb) (j : Fin nb) :
    s.boots j ≤ (roundStep P t s).boots j :=
  foldl_visit_boots_mono P t (binList P s) s j

/-- A round never clears a terminal status. -/
theorem roundStep_status_mono {nb : ℕ} (P : LoopParams nb) (t : ℕ)
    (s : LoopState nb) (j : Fin nb) (h : s.status j = true) :
    (roundStep P t s).status j = true :=
  foldl_visit_status_mono P t (binList P s) s j h

/-- Per-round upper bound on any bootstrap counter: bins are only refined
while strictly below max_nbootstrap, and a refinement adds at most the
adaptive step of the bin. -/
theorem roundStep_boots_le {nb : ℕ} (P : LoopParams nb) (t : ℕ)
    (s : LoopState nb) (j : Fin nb) :
    (roundStep P t s).boots j ≤
      max (s.boots j) (P.max_nbootstrap - 1 + bootstrapStep P j) := by
  by_cases hmem : j ∈ binList P s
  · have hb : s.boots j < P.max_nbootstrap :=
      (unconvergedAt_spec P s j ((mem_binList P s j).mp hmem)).2.2
    rw [roundStep_mem_boots P t s j hmem]
    have ha := allocate_le_step (bootstrapStep P j) (P.effs j)
    exact le_max_of_le_right (by omega)
  · rw [(roundStep_not_mem P t s j hmem).1]
    exact le_max_left _ _

/-- Bootstrap counters are non-decreasing across rounds. -/
theorem iterRounds_boots_mono {nb : ℕ} (P : LoopParams nb)
    (s : LoopState nb) (j : Fin nb) (n : ℕ) :
    (iterRounds P n s).boots j ≤ (iterRounds P (n + 1) s).boots j :=
  roundStep_boots_mono P n (iterRounds P n s) j

/-- Terminal statuses persist across rounds. -/
theorem iterRounds_status_mono {nb : ℕ} (P : LoopParams nb)
    (s : LoopState nb) (j : Fin nb) (n : ℕ)
    (h : (iterRounds P n s).status j = true) :
    (iterRounds P (n + 1) s).status j = true :=
  roundStep_status_mono P n (iterRounds P n s) j h

/-- Global bound on any bootstrap counter after any number of rounds. -/
theorem iterRounds_boots_le {nb : ℕ} (P : LoopParams nb)
    (s : LoopState nb) (j : Fin nb) (n : ℕ) :
    (iterRounds P n s).boots j ≤
      max (s.boots j) (P.max_nbootstrap - 1 + bootstrapStep P j) := by
  induction n with
  | zero => exact le_max_left _ _
  | succ n ih =>
    have hstep := roundStep_boots_le P n (iterRounds P n s) j
    exact hstep.trans (max_le ih (le_max_right _ _))

/-- A bin with at most 10 points is never in any round visit list. -/
theorem pc_le_ten_not_mem {nb : ℕ} (P : LoopParams nb) (s : LoopState nb)
    (i : Fin nb) (h : P.pc i ≤ 10) : i ∉ binList P s := by
  intro hmem
  have := (unconvergedAt_spec P s i ((mem_binList P s i).mp hmem)).2.1
  omega

/-- A bin with at most 10 points is never touched by any number of
rounds. -/
theorem pc_le_ten_frozen {nb : ℕ} (P : LoopParams nb) (s : LoopState nb)
    (i : Fin nb) (h : P.pc i ≤ 10) (n : ℕ) :
    (iterRounds P n s).boots i = s.boots i ∧
    (iterRounds P n s).status i = s.status i := by
  induction n with
  | zero => exact ⟨rfl, rfl⟩
  | succ n ih =>
    have hfr := roundStep_not_mem P n (iterRounds P n s) i
      (pc_le_ten_not_mem P (iterRounds P n s) i h)
    exact ⟨hfr.1.trans ih.1, hfr.2.trans ih.2⟩

/-- CLAIM C1, amended.  For every bin of the grid engine (bin_sf_2d) and
the isotropic engine (get_isotropic_sf_2d), the consumed-bootstrap counter
bin_bootstraps is monotonically non-decreasing across refinement rounds,
and it is bounded by max(its value at loop entry, max_nbootstrap - 1 +
the adaptive step of the bin); it can however exceed max_nbootstrap in the
final output, because the last refinement of a bin adds a full allocation
without capping at max_nbootstrap (see the counterexample). -/
theorem C1_budget_monotone {nb : ℕ} (P : LoopParams nb) (s : LoopState nb)
    (n : ℕ) (i : Fin nb) :
    (iterRounds P n s).boots i ≤ (iterRounds P (n + 1) s).boots i ∧
    (iterRounds P n s).boots i ≤
      max (s.boots i) (P.max_nbootstrap - 1 + bootstrapStep P i) :=
  ⟨iterRounds_boots_mono P s i n, iterRounds_boots_le P s i n⟩

/-- Evaluation of the adaptive step for step_nbootstrap = 100 at a bin of
density 1. -/
theorem bootstrapStep_eval_300 {nb : ℕ} (P : LoopParams nb) (i : Fin nb)
    (h1 : P.step_nbootstrap = 100) (h2 : P.density i = 1) :
    bootstrapStep P i = 300 := by
  unfold bootstrapStep
  rw [h1, h2]
  norm_num

/-- Evaluation of the proportional allocation for a single spacing of
effectiveness 1 and step 300: the full step is allocated. -/
theorem allocate_eval_300 : allocate 300 [(1:ℚ)] = 300 := by
  unfold allocate sortDescBy sortDescBy insertDescBy
  norm_num [allocAux]

/-- Loop parameters of a one-bin run with noisy data: 100 points,
density 1 (hence adaptive step 300), step_nbootstrap = 100,
max_nbootstrap = 150, initial_nbootstrap = 100, eps = 1/10, one spacing of
effectiveness 1 (one point landed in the bin per initial bootstrap), and a
standard deviation that stays at 1 after resampling. -/
def Pc1 : LoopParams 1 :=
  ⟨![100], ![1], 100, 150, 100, 1/10, ![[1]], fun _ _ => some 1⟩

/-- Loop entry state for Pc1: counter at the initial value, bin not
terminal (its initial std 1 exceeds eps). -/
def Sc1 : LoopState 1 := ⟨![100], ![false]⟩

/-- Counterexample to CLAIM C1: starting from bin_bootstraps = 100 with
max_nbootstrap = 150, the single refinement round adds the full adaptive
step of 300, leaving the final output counter at 400 > max_nbootstrap;
the loop then exits (the bin is marked MAX_BUDGET_REACHED), so 400 is the
reported nbootstraps value.  The counter thus exceeds max_nbootstrap in
the final output. -/
theorem C1_counterexample :
    Sc1.boots 0 = Pc1.initial_nbootstrap ∧
    (iterRounds Pc1 1 Sc1).boots 0 = 400 ∧
    Pc1.max_nbootstrap < (iterRounds Pc1 1 Sc1).boots 0 ∧
    loopDone Pc1 (iterRounds Pc1 1 Sc1) := by
  have hstep : bootstrapStep Pc1 0 = 300 :=
    bootstrapStep_eval_300 Pc1 0 rfl (by simp [Pc1])
  have heffs : Pc1.effs 0 = [(1:ℚ)] := by simp [Pc1]
  have hbin : binList Pc1 Sc1 = [0] := by decide
  have hone : iterRounds Pc1 1 Sc1 = visit Pc1 0 Sc1 0 := by
    show roundStep Pc1 0 (iterRounds Pc1 0 Sc1) = _
    show (binList Pc1 Sc1).foldl (visit Pc1 0) Sc1 = _
    rw [hbin]
    rfl
  have hst : Sc1.status 0 = false := rfl
  have hboots : (visit Pc1 0 Sc1 0).boots 0 = 400 := by
    rw [visit_self_boots Pc1 0 Sc1 0 hst, hstep, heffs, allocate_eval_300]
    decide
  have hstatus : (visit Pc1 0 Sc1 0).status 0 = true := by
    unfold visit
    rw [if_neg (by rw [hst]; exact Bool.false_ne_true)]
    dsimp only
    rw [Function.update_same, hstep, heffs, allocate_eval_300]
    have : decide (Pc1.max_nbootstrap ≤ Sc1.boots 0 + 300) = true := by decide
    rw [this, Bool.or_true]
  refine ⟨rfl, by rw [hone]; exact hboots, by rw [hone, hboots]; decide, ?_⟩
  intro i
  have hi : i = 0 := Subsingleton.elim i 0
  subst hi
  rw [hone]
  unfold unconvergedAt
  rw [hstatus]
  rfl

/-- CLAIM C2, amended.  The consumed-bootstrap count of every visited bin
strictly increases in a round provided the proportional allocation
computed from its effectiveness values is at least one bootstrap (integer
truncation can make it zero, see the counterexample); under that
hypothesis for all eligible bins, the loop terminates within
max_nbootstrap - initial_nbootstrap rounds, every bin being CONVERGED or
at max budget (not within the claimed
ceil((max_nbootstrap - initial_nbootstrap)/step_nbootstrap) rounds, which
the counterexample also refutes). -/
theorem C2_termination {nb : ℕ} (P : LoopParams nb) (st : Fin nb → Bool)
    (H : ∀ i : Fin nb, 10 < P.pc i →
      1 ≤ allocate (bootstrapStep P i) (P.effs i)) :
    (∀ (t : ℕ) (s : LoopState nb) (i : Fin nb), i ∈ binList P s →
      s.boots i < (roundStep P t s).boots i) ∧
    loopDone P (iterRounds P (P.max_nbootstrap - P.initial_nbootstrap)
      ⟨fun _ => P.initial_nbootstrap, st⟩) := by
  constructor
  · intro t s i hmem
    have hpc := (unconvergedAt_spec P s i ((mem_binList P s i).mp hmem)).2.1
    have h1 := H i hpc
    rw [roundStep_mem_boots P t s i hmem]
    omega
  · set s0 : LoopState nb := ⟨fun _ => P.initial_nbootstrap, st⟩ with hs0
    have key : ∀ (n : ℕ) (i : Fin nb),
        unconvergedAt P (iterRounds P n s0) i = true →
        P.initial_nbootstrap + n ≤ (iterRounds P n s0).boots i := by
      intro n
      induction n with
      | zero =>
        intro i _
        have hb : (iterRounds P 0 s0).boots i = P.initial_nbootstrap := rfl
        omega
      | succ n ih =>
        intro i h
        obtain ⟨hst1, hpc1, hb1⟩ := unconvergedAt_spec P _ i h
        have hstn : (iterRounds P n s0).status i = false := by
          cases hx : (iterRounds P n s0).status i
          · rfl
          · have hmono := iterRounds_status_mono P s0 i n hx
            simp [hmono] at hst1
        have hbn : (iterRounds P n s0).boots i < P.max_nbootstrap :=
          lt_of_le_of_lt (iterRounds_boots_mono P s0 i n) hb1
        have hun : unconvergedAt P (iterRounds P n s0) i = true := by
          unfold unconvergedAt
          simp [hstn, hpc1, hbn]
        have hih := ih i hun
        have hmem := (mem_binList P _ i).mpr hun
        have hround := roundStep_mem_boots P n (iterRounds P n s0) i hmem
        have halloc := H i hpc1
        show P.initial_nbootstrap + (n + 1) ≤
          (roundStep P n (iterRounds P n s0)).boots i
        rw [hround]
        omega
    intro i
    cases hx : unconvergedAt P
      (iterRounds P (P.max_nbootstrap - P.initial_nbootstrap) s0) i
    · rfl
    · have hk := key _ i hx
      have hb := (unconvergedAt_spec P _ i hx).2.2
      omega

/-- Loop parameters of a one-bin run identical to Pc1 (they describe the
same realizable situation; a separate definition keeps the two claims
independent). -/
def Pc2 : LoopParams 1 :=
  ⟨![100], ![1], 100, 150, 100, 1/10, ![[1]], fun _ _ => some 1⟩

/-- Witness for the amended C2: the allocation hypothesis holds for Pc2
(the single bin gets the full step of 300 ≥ 1), so the loop is done after
max_nbootstrap - initial_nbootstrap rounds. -/
theorem C2_termination_witness :
    (∀ i : Fin 1, 10 < Pc2.pc i →
      1 ≤ allocate (bootstrapStep Pc2 i) (Pc2.effs i)) ∧
    loopDone Pc2 (iterRounds Pc2
      (Pc2.max_nbootstrap - Pc2.initial_nbootstrap)
      ⟨fun _ => Pc2.initial_nbootstrap, ![false]⟩) := by
  have hH : ∀ i : Fin 1, 10 < Pc2.pc i →
      1 ≤ allocate (bootstrapStep Pc2 i) (Pc2.effs i) := by
    intro i _
    have hi : i = 0 := Subsingleton.elim i 0
    subst hi
    have hstep : bootstrapStep Pc2 0 = 300 :=
      bootstrapStep_eval_300 Pc2 0 rfl (by simp [Pc2])
    have heffs : Pc2.effs 0 = [(1:ℚ)] := by simp [Pc2]
    rw [hstep, heffs, allocate_eval_300]
    omega
  exact ⟨hH, (C2_termination Pc2 ![false] hH).2⟩

/-- Loop parameters of a two-bin run exhibiting allocation starvation.
Bin 0: 11 points, tiny normalized density 1/100, two spacings of
effectiveness 1/10 and 3/25 (5 and 6 points landed over the 50 initial
bootstraps each spacing received), std stuck at 1 > eps.  Bin 1: 8 points
in a tiny-area bin, hence normalized density 1 (it never enters the loop:
its point count is ≤ 10 and it is already terminal).  step_nbootstrap = 1,
max_nbootstrap = 102, initial_nbootstrap = 100, eps = 1/10. -/
def Pc3 : LoopParams 2 :=
  ⟨![11, 8], ![1/100, 1], 1, 102, 100, 1/10, ![[1/10, 3/25], [1]],
    fun _ _ => some 1⟩

/-- Loop entry state for Pc3. -/
def Sc3 : LoopState 2 := ⟨![100, 100], ![false, true]⟩

/-- Adaptive step of bin 0 under Pc3: floor(1 * (1 + 2/100)) = 1, so the
step is 1. -/
theorem bootstrapStep_Pc3_eval : bootstrapStep Pc3 0 = 1 := by
  unfold bootstrapStep
  have hd : Pc3.density 0 = 1/100 := by simp [Pc3]
  have hs : Pc3.step_nbootstrap = 1 := rfl
  rw [hd, hs]
  have harg : ((1:ℕ):ℚ) * (1 + 2 * (1/100)) = 51/50 := by norm_num
  rw [harg]
  have hf : Nat.floor ((51:ℚ)/50) = 1 := by
    rw [Nat.floor_eq_iff (by norm_num)]
    norm_num
  rw [hf]
  exact max_self 1

/-- Proportional allocation for step 1 over spacings of effectiveness 1/10
and 3/25: both integer shares truncate to zero, so nothing is allocated. -/
theorem allocate_Pc3_eval : allocate 1 [(1:ℚ)/10, 3/25] = 0 := by
  unfold allocate
  have hsort : sortDescBy id [(1:ℚ)/10, 3/25] = [3/25, 1/10] := by
    unfold sortDescBy sortDescBy sortDescBy insertDescBy insertDescBy
    norm_num
  rw [hsort]
  dsimp only
  have hfil : ([(3:ℚ)/25, 1/10].filter (fun e => decide (0 < e))) =
      [(3:ℚ)/25, 1/10] := by
    norm_num
  rw [hfil]
  have hsum : ([(3:ℚ)/25, 1/10]).sum = 11/50 := by norm_num
  rw [hsum]
  unfold allocAux allocAux allocAux
  have h6 : (Nat.floor ((6:ℚ)/11) : ℕ) = 0 :=
    Nat.floor_eq_zero.mpr (by norm_num)
  have h5 : (Nat.floor ((5:ℚ)/11) : ℕ) = 0 :=
    Nat.floor_eq_zero.mpr (by norm_num)
  norm_num [h6, h5]

/-- One round of Pc3 from any state with bin 0 at 100 bootstraps and
unconverged and bin 1 terminal is a no-op on those observables. -/
theorem roundStep_Pc3_fix (t : ℕ) (s : LoopState 2) (hb : s.boots 0 = 100)
    (h0 : s.status 0 = false) (h1 : s.status 1 = true) :
    (roundStep Pc3 t s).boots 0 = 100 ∧
    (roundStep Pc3 t s).status 0 = false ∧
    (roundStep Pc3 t s).status 1 = true := by
  have heffs : Pc3.effs 0 = [(1:ℚ)/10, 3/25] := by simp [Pc3]
  have hu0 : unconvergedAt Pc3 s 0 = true := by
    unfold unconvergedAt
    rw [h0, hb]
    rfl
  have hu1 : unconvergedAt Pc3 s 1 = false := by
    unfold unconvergedAt
    rw [h1]
    rfl
  have hbin : binList Pc3 s = [0] := by
    unfold binList
    have hfin : List.finRange 2 = [0, 1] := by decide
    rw [hfin, List.filter_cons, List.filter_cons, List.filter_nil, hu0, hu1]
    rfl
  have hrs : roundStep Pc3 t s = visit Pc3 t s 0 := by
    unfold roundStep
    rw [hbin]
    rfl
  have halloc : allocate (bootstrapStep Pc3 0) (Pc3.effs 0) = 0 := by
    rw [bootstrapStep_Pc3_eval, heffs, allocate_Pc3_eval]
  have hvb : (visit Pc3 t s 0).boots 0 = 100 := by
    rw [visit_self_boots Pc3 t s 0 h0, halloc, hb]
  have hvs0 : (visit Pc3 t s 0).status 0 = false := by
    unfold visit
    rw [if_neg (by rw [h0]; exact Bool.false_ne_true)]
    dsimp only
    rw [Function.update_same, halloc, hb]
    have hstd : stdLe (Pc3.oracle t 0) Pc3.eps = false := by
      show stdLe (some 1) (1/10) = false
      unfold stdLe
      norm_num
    rw [hstd]
    rfl
  have hvs1 : (visit Pc3 t s 0).status 1 = true := by
    rw [visit_status_frame Pc3 t s 0 1 (by decide)]
    exact h1
  exact ⟨hrs ▸ hvb, hrs ▸ hvs0, hrs ▸ hvs1⟩

/-- Counterexample to CLAIM C2: under Pc3 the claimed worst case is
ceil((max_nbootstrap - initial_nbootstrap)/step_nbootstrap) =
ceil((102-100)/1) = 2 rounds, yet after 2 rounds bin 0 is still
unconverged; moreover bin 0 is visited while unconverged and its
consumed-bootstrap count does not strictly increase (the proportional
allocation truncates to 0 for every spacing), so the loop never
terminates. -/
theorem C2_counterexample :
    unconvergedAt Pc3 Sc3 0 = true ∧
    0 ∈ binList Pc3 Sc3 ∧
    (roundStep Pc3 0 Sc3).boots 0 = Sc3.boots 0 ∧
    ¬ loopDone Pc3 (iterRounds Pc3 2 Sc3) := by
  have hu : unconvergedAt Pc3 Sc3 0 = true := by
    unfold unconvergedAt
    rfl
  have h0 := roundStep_Pc3_fix 0 Sc3 rfl rfl rfl
  have h1 := roundStep_Pc3_fix 1 (roundStep Pc3 0 Sc3) h0.1 h0.2.1 h0.2.2
  refine ⟨hu, (mem_binList Pc3 Sc3 0).mpr hu, h0.1, ?_⟩
  intro hld
  have hfinal : unconvergedAt Pc3 (iterRounds Pc3 2 Sc3) 0 = true := by
    have he : iterRounds Pc3 2 Sc3 = roundStep Pc3 1 (roundStep Pc3 0 Sc3) :=
      rfl
    unfold unconvergedAt
    rw [he, h1.2.1, h1.1]
    rfl
  rw [hld 0] at hfinal
  exact Bool.false_ne_true hfinal

/-- CLAIM C7, amended.  After the initial sampling phase, every bin whose
raw point count is at most 10 is marked CONVERGED and is never revisited
by the refinement loop (it is in no round visit list; its bootstrap count
and status never change).  Its output mean however is NaN exactly when the
bin has no weighted batch contribution (weight_totals = 0); a bin with
1 to 10 points coming from a batch with positive weight sum reports a
non-NaN mean (see the counterexample). -/
theorem C7_low_count_bins (sq : ℚ → ℚ) (eps : ℚ) (a : BinAcc)
    (h1 : a.point_counts ≤ 10) {nb : ℕ} (P : LoopParams nb)
    (s : LoopState nb) (n : ℕ) (i : Fin nb) (h2 : P.pc i ≤ 10) :
    initialStatus sq eps a = true ∧
    (binMean a = none ↔ a.weight_totals = 0) ∧
    i ∉ binList P s ∧
    (iterRounds P n s).boots i = s.boots i ∧
    (iterRounds P n s).status i = s.status i := by
  refine ⟨?_, ?_, pc_le_ten_not_mem P s i h2,
    (pc_le_ten_frozen P s i h2 n).1, (pc_le_ten_frozen P s i h2 n).2⟩
  · unfold initialStatus
    simp [h1]
  · unfold binMean
    split
    · next hw =>
      constructor
      · intro h3
        exact absurd h3 (Option.some_ne_none _)
      · intro h3
        omega
    · next hw =>
      constructor
      · intro _
        omega
      · intro _
        rfl

/-- Loop parameters with a single 5-point bin, used by the C7 witness. -/
def Pc7 : LoopParams 1 :=
  ⟨![5], ![1], 100, 1000, 100, 1/10, ![[1]], fun _ _ => some 1⟩

/-- Post-initial-marking state for Pc7: the 5-point bin is CONVERGED. -/
def Sc7 : LoopState 1 := ⟨![100], ![true]⟩

/-- Witness for the amended C7 at the concrete accumulator (5 points, one
contributing batch) and the concrete one-bin loop Pc7 over 3 rounds. -/
theorem C7_low_count_bins_witness :
    (⟨2, 4, 1, 5⟩ : BinAcc).point_counts ≤ 10 ∧ Pc7.pc 0 ≤ 10 ∧
    (initialStatus (fun _ => 0) (1/10) ⟨2, 4, 1, 5⟩ = true ∧
      (binMean ⟨2, 4, 1, 5⟩ = none ↔
        (⟨2, 4, 1, 5⟩ : BinAcc).weight_totals = 0) ∧
      0 ∉ binList Pc7 Sc7 ∧
      (iterRounds Pc7 3 Sc7).boots 0 = Sc7.boots 0 ∧
      (iterRounds Pc7 3 Sc7).status 0 = Sc7.status 0) :=
  ⟨by decide, by decide,
    C7_low_count_bins (fun _ => 0) (1/10) ⟨2, 4, 1, 5⟩ (by decide)
      Pc7 Sc7 3 0 (by decide)⟩

end PyTurboSF
